import Mathlib

/-!
Verification of the naming-resolution and service-discovery watch layer of
the `deixis` stack (packages `disco` and `net/naming`).

The Go source is embedded shallowly:

* Go maps become association lists (`List (key × value)`) with insert /
  lookup / erase helpers; map iteration is embedded as list iteration (the
  properties proved below are insensitive to iteration order).
* Go channels become a `Chan` structure holding the buffered values and a
  closed flag; `close` of a closed channel is embedded as an error result,
  mirroring the Go runtime panic; a receive on an open empty channel is
  embedded as a `blocked` outcome.
* Fallible Go functions return `Except` / `Option`; a Go `panic` inside
  `Register` is embedded as a dedicated result constructor.
-/

namespace Spine

/-! ## Association-list embedding of Go maps -/

/-- Lookup in an association list (embedding of Go map indexing). -/
def lookupKey {α : Type} (m : List (String × α)) (k : String) : Option α :=
  match m with
  | [] => none
  | (k', v) :: rest => if k' = k then some v else lookupKey rest k

/-- Insert/replace in an association list (embedding of Go `m[k] = v`). -/
def insertKey {α : Type} (m : List (String × α)) (k : String) (v : α) :
    List (String × α) :=
  match m with
  | [] => [(k, v)]
  | (k', v') :: rest =>
    if k' = k then (k, v) :: rest else (k', v') :: insertKey rest k v

/-- Deletion from an association list (embedding of Go `delete(m, k)`). -/
def eraseKey {α : Type} (m : List (String × α)) (k : String) :
    List (String × α) :=
  match m with
  | [] => []
  | (k', v') :: rest =>
    if k' = k then rest else (k', v') :: eraseKey rest k

/-- The keys of an association list. -/
def keysOf {α : Type} (m : List (String × α)) : List String :=
  m.map Prod.fst

/-! ## Counting helper -/

/-- Number of elements of a list satisfying a boolean predicate. -/
def countB {α : Type} (p : α → Bool) : List α → Nat
  | [] => 0
  | a :: l => (if p a then 1 else 0) + countB p l

/-- Number of occurrences of a value in a list. -/
def occurrences {α : Type} [DecidableEq α] (a : α) (l : List α) : Nat :=
  countB (fun b => decide (b = a)) l

/-! ## Data model of package `disco` -/

/-- `disco.Instance`: one registered occurrence of a named service
(`Local`, `ID`, `Name`, `Host`, `Port`, `Tags`). -/
structure Instance where
  isLocal : Bool
  id : String
  name : String
  host : String
  port : Nat
  tags : List String
deriving DecidableEq, Repr

/-- `net.JoinHostPort`: brackets the host when it contains a colon. -/
def joinHostPort (host port : String) : String :=
  if host.toList.contains ':' then "[" ++ host ++ "]:" ++ port
  else host ++ ":" ++ port

/-- `Instance.Addr`: host and port joined on demand. -/
def Instance.addr (i : Instance) : String :=
  joinHostPort i.host (toString i.port)

/-- `disco.Operation` (`Add`, `Update`, `Delete`). -/
inductive DOp where
  | add
  | update
  | delete
deriving DecidableEq, Repr

/-- `disco.Event`: an operation together with the affected instance. -/
structure Event where
  op : DOp
  inst : Instance
deriving DecidableEq, Repr

/-! ## Diff engine (`disco/watcher.go`, `Diff.Apply`) -/

/-- First loop of `Diff.Apply`: walk `state`; an instance whose ID is
missing from the snapshot yields an `Add` event, an instance whose ID is
present yields an (unconditional) `Update` event; in both cases the
snapshot entry is overwritten with the instance.  Returns the emitted
events and the updated snapshot. -/
def diffFirstPass (m : List (String × Instance)) :
    List Instance → List Event × List (String × Instance)
  | [] => ([], m)
  | inst :: rest =>
    let e : Event :=
      if (lookupKey m inst.id).isSome then ⟨DOp.update, inst⟩
      else ⟨DOp.add, inst⟩
    let r := diffFirstPass (insertKey m inst.id inst) rest
    (e :: r.1, r.2)

/-- Second loop of `Diff.Apply`: every snapshot entry whose key is not
among the running IDs is removed and yields a `Delete` event carrying the
stored instance. -/
def diffDeletePass (running : List String) :
    List (String × Instance) → List Event × List (String × Instance)
  | [] => ([], [])
  | (k, v) :: rest =>
    let r := diffDeletePass running rest
    if k ∈ running then (r.1, (k, v) :: r.2)
    else (⟨DOp.delete, v⟩ :: r.1, r.2)

/-- `Diff.Apply`: events needed to go from snapshot `m` to `state`,
together with the replacement snapshot. -/
def diffApply (m : List (String × Instance)) (state : List Instance) :
    List Event × List (String × Instance) :=
  let fst := diffFirstPass m state
  let snd := diffDeletePass (state.map Instance.id) fst.2
  (fst.1 ++ snd.1, snd.2)

/-! ## Address-update vocabulary of package `net/naming`

The file defining the `naming.Update` type itself is not part of the
sources at hand (only its users are), so the type is taken from the
specification. -/

/-- Modelled from the spec: `net/naming` address operation, `Add` or
`Delete`; the zero value is `Add`. -/
inductive NOp where
  | add
  | delete
deriving DecidableEq, Repr

/-- Modelled from the spec: `naming.Update` is
`Op: Add or Delete, Addr: string, Metadata: optional map`; the watchers in
the sources construct updates with only `Addr` set (zero `Op`, i.e. `Add`,
and no metadata). -/
structure NUpdate where
  op : NOp
  addr : String
  metadata : Option (List (String × String))
deriving DecidableEq, Repr

/-- Modelled from the spec: the errors surfaced by `net/naming`; the
`watcherClosed` constructor is the distinguished `ErrWatcherClosed`
sentinel. -/
inductive NErr where
  | watcherClosed
  | resolverNotFound (scheme : String)
  | missingAddr
  | invalidURI (uri : String)
  | invalidTarget (target : String)
deriving DecidableEq, Repr

/-! ## Go channel embedding

All channels appearing in these sources are created with capacity one
(`make(chan …, 1)`). -/

/-- A Go channel of capacity one: the buffered values and the closed flag. -/
structure Chan (α : Type) where
  buf : List α
  closed : Bool
deriving DecidableEq, Repr

/-- Outcome of a channel receive: a value, the closed-and-drained zero
result (`v, ok := <-c` with `ok = false`), or blocking. -/
inductive ChanRecv (α : Type) where
  | recv (v : α) (rest : Chan α)
  | closedOut
  | blocked
deriving DecidableEq, Repr

/-- Go channel receive: buffered values are delivered first (also after
`close`); a closed drained channel yields `closedOut`; an open empty
channel blocks. -/
def chanRecv {α : Type} (c : Chan α) : ChanRecv α :=
  match c.buf with
  | v :: rest => ChanRecv.recv v { c with buf := rest }
  | [] => if c.closed then ChanRecv.closedOut else ChanRecv.blocked

/-- Go `close(c)`: closing an already-closed channel panics (embedded as
the error case). -/
def chanClose {α : Type} (c : Chan α) : Except String (Chan α) :=
  if c.closed then Except.error "close of closed channel"
  else Except.ok { c with closed := true }

/-- Send on a capacity-one channel: blocks (`none`) when the buffer is
full; sends in these sources only ever target open channels. -/
def chanSend1 {α : Type} (c : Chan α) (v : α) : Option (Chan α) :=
  if c.closed then none
  else if 1 ≤ c.buf.length then none
  else some { c with buf := c.buf ++ [v] }

/-! ## Watcher `Next` outcomes -/

/-- Outcome of a blocking `Next` call on a channel-backed watcher. -/
inductive WNext (α : Type) where
  | ret (vals : List α) (rest : Chan α)
  | err (e : NErr)
  | blocked
deriving DecidableEq, Repr

/-- `passThroughWatcher.Next` (`net/naming/registry.go`): one receive on
`updateChan`; a closed drained channel yields `ErrWatcherClosed`. -/
def passThroughNext (c : Chan NUpdate) : WNext NUpdate :=
  match chanRecv c with
  | ChanRecv.recv u rest => WNext.ret [u] rest
  | ChanRecv.closedOut => WNext.err NErr.watcherClosed
  | ChanRecv.blocked => WNext.blocked

/-- `passThroughResolver.Resolve`: a fresh capacity-one channel already
holding the single `Add` update for the literal target. -/
def passthroughResolve (target : String) : Chan NUpdate :=
  { buf := [⟨NOp.add, target, none⟩], closed := false }

/-- `ipWatcher.Next` (`net/naming/disco.go`): identical receive discipline
to the passthrough watcher. -/
def ipWatcherNext (c : Chan NUpdate) : WNext NUpdate :=
  match chanRecv c with
  | ChanRecv.recv u rest => WNext.ret [u] rest
  | ChanRecv.closedOut => WNext.err NErr.watcherClosed
  | ChanRecv.blocked => WNext.blocked

/-- `watcher.Next` of the local discovery agent (`disco/local.go`): one
receive on the subscription channel; a closed drained channel yields the
`ErrWatcherClosed` sentinel of package `disco` (embedded with the same
constructor). -/
def localWatcherNext (c : Chan Event) : WNext Event :=
  match chanRecv c with
  | ChanRecv.recv e rest => WNext.ret [e] rest
  | ChanRecv.closedOut => WNext.err NErr.watcherClosed
  | ChanRecv.blocked => WNext.blocked

/-! ## DNS watcher (`net/naming/disco.go`) -/

/-- State of a `dnsWatcher` relevant here: the cancellation flag of its
context and the latest resolved address set (`curAddrs`, keyed by address
string). -/
structure DnsWatcherState where
  cancelled : Bool
  curAddrs : List (String × NUpdate)
deriving DecidableEq, Repr

/-- `dnsWatcher.Close`: cancels the watcher's context (idempotent). -/
def dnsClose (s : DnsWatcherState) : DnsWatcherState :=
  { s with cancelled := true }

/-- Outcome of the `select` at the head of `dnsWatcher.Next`: after
cancellation the `ctx.Done()` branch is ready and `Next` returns
`ErrWatcherClosed`; otherwise the watcher proceeds to a DNS poll
(external I/O, outside this embedding). -/
inductive DnsNextOut where
  | err (e : NErr)
  | polled
deriving DecidableEq, Repr

/-- The cancellation check of `dnsWatcher.Next`. -/
def dnsNextStep (s : DnsWatcherState) : DnsNextOut :=
  if s.cancelled then DnsNextOut.err NErr.watcherClosed else DnsNextOut.polled

/-- First loop of `dnsWatcher.compileUpdate`: every previously resolved
address missing from the new set is re-emitted with its stored update
record re-tagged `Op = Delete`. -/
def compileDeletes (newAddrs : List (String × NUpdate)) :
    List (String × NUpdate) → List NUpdate
  | [] => []
  | (a, u) :: rest =>
    if (lookupKey newAddrs a).isSome then compileDeletes newAddrs rest
    else { u with op := NOp.delete } :: compileDeletes newAddrs rest

/-- Second loop of `dnsWatcher.compileUpdate`: every newly resolved
address absent from the previous set is emitted as stored (the lookups
build records with zero `Op`, i.e. `Add`). -/
def compileAdds (curAddrs : List (String × NUpdate)) :
    List (String × NUpdate) → List NUpdate
  | [] => []
  | (a, u) :: rest =>
    if (lookupKey curAddrs a).isSome then compileAdds curAddrs rest
    else u :: compileAdds curAddrs rest

/-- `dnsWatcher.compileUpdate`: delta between the previous (`curAddrs`)
and newly resolved address sets. -/
def compileUpdate (curAddrs newAddrs : List (String × NUpdate)) :
    List NUpdate :=
  compileDeletes newAddrs curAddrs ++ compileAdds curAddrs newAddrs

/-- `dnsWatcher.lookup` after the DNS queries returned `newAddrs`: the
delta is computed and the stored address set replaced unconditionally. -/
def dnsLookupStep (s : DnsWatcherState) (newAddrs : List (String × NUpdate)) :
    List NUpdate × DnsWatcherState :=
  (compileUpdate s.curAddrs newAddrs, { s with curAddrs := newAddrs })

/-! ## Disco-to-address adapter (`discoWatcher` in `net/naming/disco.go`) -/

/-- The event-translation loop of `discoWatcher.Next`: walks the received
discovery events, maintaining the `ID → Instance` cache (`w.instances`).
`Add` caches the instance and emits an `Add` update; `Update` of an
uncached ID is skipped, of a cached ID it emits `Delete(old)` then
`Add(new)` exactly when the address changed (the cache entry itself is
left untouched, as in the source); `Delete` evicts the cache entry and
emits a `Delete` update. -/
def discoProcess (cache : List (String × Instance)) :
    List Event → List NUpdate × List (String × Instance)
  | [] => ([], cache)
  | evt :: rest =>
    match evt.op with
    | DOp.add =>
      let r := discoProcess (insertKey cache evt.inst.id evt.inst) rest
      (⟨NOp.add, evt.inst.addr, none⟩ :: r.1, r.2)
    | DOp.update =>
      match lookupKey cache evt.inst.id with
      | none => discoProcess cache rest
      | some old =>
        if old.addr ≠ evt.inst.addr then
          let r := discoProcess cache rest
          (⟨NOp.delete, old.addr, none⟩ :: ⟨NOp.add, evt.inst.addr, none⟩ :: r.1,
            r.2)
        else discoProcess cache rest
    | DOp.delete =>
      let r := discoProcess (eraseKey cache evt.inst.id) rest
      (⟨NOp.delete, evt.inst.addr, none⟩ :: r.1, r.2)

/-- Result of the underlying discovery watcher's `Next`, fed into
`discoWatcher.Next`. -/
inductive DiscoIn where
  | events (evs : List Event)
  | errClosed
  | errOther (msg : String)
deriving DecidableEq, Repr

/-- `discoWatcher.Next` given the outcome of the wrapped watcher:
`disco.ErrWatcherClosed` is translated to the naming sentinel, other
errors pass through, events are translated by `discoProcess`. -/
def discoWatcherNext (cache : List (String × Instance)) (incoming : DiscoIn) :
    Except NErr (List NUpdate × List (String × Instance)) :=
  match incoming with
  | DiscoIn.errClosed => Except.error NErr.watcherClosed
  | DiscoIn.errOther m => Except.error (NErr.invalidTarget m)
  | DiscoIn.events evs => Except.ok (discoProcess cache evs)

/-! ## Local discovery agent (`disco/local.go`) -/

/-- `disco.Registration`. -/
structure Registration where
  id : String
  name : String
  addr : String
  port : Nat
  tags : List String
deriving DecidableEq, Repr

/-- State of the local agent: the catalogue (`Registry`, keyed by instance
ID) and the subscriber channels (`Subs`, embedded as a list). -/
structure AgentState where
  registry : List (String × Instance)
  subs : List (Chan Event)
deriving DecidableEq, Repr

/-- `NewLocalAgent`. -/
def newLocalAgent : AgentState :=
  { registry := [], subs := [] }

/-- Synchronous broadcast of one event to every subscriber channel, as in
`Register`/`deregister`; `none` when some capacity-one channel is full and
the send blocks. -/
def broadcastEvent (e : Event) : List (Chan Event) → Option (List (Chan Event))
  | [] => some []
  | c :: rest =>
    match chanSend1 c e with
    | none => none
    | some c' =>
      match broadcastEvent e rest with
      | none => none
      | some rest' => some (c' :: rest')

/-- Outcome of `agent.Register`. -/
inductive RegOutcome where
  | ok (st : AgentState) (id : String)
  | err (msg : String)
  | blocked
deriving DecidableEq, Repr

/-- `agent.Register`: `freshId` stands for the `uuid.New().String()` draw
used when the registration carries no ID.  A duplicate ID is an error;
otherwise the instance is stored with `Local = true` and an `Add` event is
broadcast synchronously to every subscriber. -/
def agentRegister (freshId : String) (st : AgentState) (r : Registration) :
    RegOutcome :=
  let id := if r.id = "" then freshId else r.id
  if (lookupKey st.registry id).isSome then
    RegOutcome.err "service already registered"
  else
    let inst : Instance :=
      { isLocal := true, id := id, name := r.name, host := r.addr,
        port := r.port, tags := r.tags }
    match broadcastEvent ⟨DOp.add, inst⟩ st.subs with
    | none => RegOutcome.blocked
    | some subs' =>
      RegOutcome.ok { registry := insertKey st.registry id inst, subs := subs' }
        id

/-- `agent.deregister`: absent IDs are a no-op; otherwise the instance is
removed and a `Delete` event broadcast. -/
def agentDeregister (st : AgentState) (id : String) : RegOutcome :=
  match lookupKey st.registry id with
  | none => RegOutcome.ok st ""
  | some inst =>
    match broadcastEvent ⟨DOp.delete, inst⟩ st.subs with
    | none => RegOutcome.blocked
    | some subs' =>
      RegOutcome.ok { registry := eraseKey st.registry id, subs := subs' } ""

/-- The value side of the `map[string]Service` built by `agent.services`:
the service name and the singleton instance list stored for it. -/
structure ServiceV where
  name : String
  instances : List Instance
deriving DecidableEq, Repr

/-- The loop body of `agent.services`: each catalogue instance overwrites
the map entry for its service name with a singleton-instance service.  The
`tags` parameter is carried exactly as in the source, which never reads
it. -/
def servicesLoop (tags : List String) (acc : List (String × ServiceV)) :
    List (String × Instance) → List (String × ServiceV)
  | [] => acc
  | (_, inst) :: rest =>
    servicesLoop tags (insertKey acc inst.name ⟨inst.name, [inst]⟩) rest

/-- `agent.services` (also the body of `Services`): builds the
name-indexed map from the catalogue, starting from the empty map. -/
def agentServices (st : AgentState) (tags : List String) :
    List (String × ServiceV) :=
  servicesLoop tags [] st.registry

/-- `agent.Service(name, tags...)`: a lookup in the `services` map;
a missing name is an error. -/
def agentService (st : AgentState) (name : String) (tags : List String) :
    Except String ServiceV :=
  match lookupKey (agentServices st tags) name with
  | some s => Except.ok s
  | none => Except.error "service does not exist"

/-- The `watch` closure built by `agent.services` together with
`service.Watch()`: a fresh empty capacity-one subscription channel is
created and added to `Subs`; the new channel is returned with the updated
agent state. -/
def agentWatch (st : AgentState) : AgentState × Chan Event :=
  let sub : Chan Event := { buf := [], closed := false }
  ({ st with subs := st.subs ++ [sub] }, sub)

/-! ## Resolver registry (`net/naming/registry.go`) -/

/-- The builders registered in `init()`: `dns`, `disco`, `passthrough`. -/
inductive BuilderTag where
  | dns
  | disco
  | passthrough
deriving DecidableEq, Repr

/-- Result of `Register`: the Go `panic` is a dedicated constructor. -/
inductive RegisterResult where
  | panicked (msg : String)
  | ok (table : List (String × BuilderTag))
deriving DecidableEq, Repr

/-- `Register(name, r)`: panics on a nil builder (embedded as `none`) or a
duplicate scheme; otherwise stores the builder. -/
def registerBuilder (table : List (String × BuilderTag)) (name : String)
    (b : Option BuilderTag) : RegisterResult :=
  match b with
  | none => RegisterResult.panicked "net/naming: Registered resolver is nil"
  | some bb =>
    if (lookupKey table name).isSome then
      RegisterResult.panicked "net/naming: Duplicated resolver"
    else RegisterResult.ok (insertKey table name bb)

/-- The scheme table after the three `init()` registrations. -/
def builderTable : List (String × BuilderTag) :=
  [("dns", BuilderTag.dns), ("disco", BuilderTag.disco),
    ("passthrough", BuilderTag.passthrough)]

/-- The process-wide default scheme, at its initial value (the source lets
`SetDefaultScheme` overwrite it once at startup; the claims below concern
the `passthrough` default). -/
def defaultSchemeV : String := "passthrough"

/-- The parsed-URL record (the fields of `url.URL` read by this layer). -/
structure URL where
  scheme : String
  host : String
  path : String
  query : String
deriving DecidableEq, Repr

/-- Splits `scheme "://" rest`, returning the characters before the first
`"://"` and those after it. -/
def splitSchemeSep : List Char → Option (List Char × List Char)
  | [] => none
  | ':' :: '/' :: '/' :: rest => some ([], rest)
  | c :: rest =>
    match splitSchemeSep rest with
    | some lr => some (c :: lr.1, lr.2)
    | none => none

/-- A valid URI scheme: a letter followed by letters, digits, `+`, `-`,
`.`. -/
def validScheme (cs : List Char) : Bool :=
  match cs with
  | [] => false
  | c :: rest =>
    c.isAlpha &&
      rest.all (fun d => d.isAlpha || d.isDigit || d = '+' || d = '-' || d = '.')

/-- Modelled from the Go standard library `net/url.Parse`, restricted to
the fragment this layer exercises: either `scheme://host[/path][?query]`
with a valid scheme, or a string without a colon, parsed as a relative
reference whose path is the whole string and whose scheme is empty. -/
def parseURL (s : String) : Option URL :=
  match splitSchemeSep s.toList with
  | some lr =>
    if validScheme lr.1 then
      let hostCs := lr.2.takeWhile (fun c => c ≠ '/' && c ≠ '?')
      let rest := lr.2.dropWhile (fun c => c ≠ '/' && c ≠ '?')
      let pathCs := rest.takeWhile (fun c => c ≠ '?')
      let queryCs := (rest.dropWhile (fun c => c ≠ '?')).drop 1
      some { scheme := String.mk lr.1, host := String.mk hostCs,
             path := String.mk pathCs, query := String.mk queryCs }
    else none
  | none =>
    if s.toList.contains ':' then none
    else some { scheme := "", host := "", path := s, query := "" }

/-- Modelled from the Go standard library `url.URL.String`, restricted to
the same fragment. -/
def urlString (u : URL) : String :=
  (if u.scheme = "" then "" else u.scheme ++ "://" ++ u.host) ++ u.path ++
    (if u.query = "" then "" else "?" ++ u.query)

/-- The scheme-dispatch part of `Resolve`: parse the URI, re-parse with
the default scheme prefixed when the scheme is empty, then look up the
builder; an unknown scheme is the `resolver not found` error. -/
def resolveDispatch (uri : String) : Except NErr (BuilderTag × URL) :=
  match parseURL uri with
  | none => Except.error (NErr.invalidURI uri)
  | some u =>
    match (if u.scheme = "" then parseURL (defaultSchemeV ++ "://" ++ uri)
      else some u) with
    | none => Except.error (NErr.invalidURI uri)
    | some u' =>
      match lookupKey builderTable u'.scheme with
      | some b => Except.ok (b, u')
      | none => Except.error (NErr.resolverNotFound u'.scheme)

/-- `buildPassthrough`: delegates to the passthrough resolver with the
re-serialised URI. -/
def buildPassthroughModel (u : URL) : Chan NUpdate :=
  passthroughResolve (urlString u)

/-! ## DNS target parsing (`parseTarget` and `net.SplitHostPort`) -/

/-- Whether a character occurs in a list. -/
def hasChar (cs : List Char) (c : Char) : Bool :=
  match cs with
  | [] => false
  | a :: rest => a = c || hasChar rest c

/-- Index of the last occurrence of a character. -/
def lastIdxOf (cs : List Char) (c : Char) : Option Nat :=
  match cs with
  | [] => none
  | a :: rest =>
    match lastIdxOf rest c with
    | some i => some (i + 1)
    | none => if a = c then some 0 else none

/-- Index of the first occurrence of a character. -/
def firstIdxOf (cs : List Char) (c : Char) : Option Nat :=
  match cs with
  | [] => none
  | a :: rest => if a = c then some 0 else (firstIdxOf rest c).map (· + 1)

/-- Modelled from the Go standard library `net.SplitHostPort` (errors
collapsed to `none`): the port starts after the last colon; a leading
`[` must pair with a `]` immediately before that colon and is stripped;
otherwise the host is everything before the last colon and may not itself
contain a colon; stray brackets are rejected. -/
def splitHostPort (hostPort : String) : Option (String × String) :=
  let cs := hostPort.toList
  match lastIdxOf cs ':' with
  | none => none
  | some i =>
    if cs.head? = some '[' then
      match firstIdxOf cs ']' with
      | none => none
      | some e =>
        if e + 1 = cs.length then none
        else if e + 1 ≠ i then none
        else if hasChar (cs.drop 1) '[' then none
        else if hasChar (cs.drop (e + 1)) ']' then none
        else some (String.mk ((cs.drop 1).take (e - 1)),
          String.mk (cs.drop (i + 1)))
    else
      let host := cs.take i
      if hasChar host ':' then none
      else if hasChar cs '[' then none
      else if hasChar cs ']' then none
      else some (String.mk host, String.mk (cs.drop (i + 1)))

/-- Splits a character list at every occurrence of one character. -/
def splitOnChar (c : Char) : List Char → List (List Char)
  | [] => [[]]
  | a :: rest =>
    if a = c then [] :: splitOnChar c rest
    else
      match splitOnChar c rest with
      | [] => [[a]]
      | g :: gs => (a :: g) :: gs

/-- Splits a character list at every occurrence of a double colon. -/
def splitColonColon : List Char → List (List Char)
  | [] => [[]]
  | ':' :: ':' :: rest => [] :: splitColonColon rest
  | a :: rest =>
    match splitColonColon rest with
    | [] => [[a]]
    | g :: gs => (a :: g) :: gs

/-- Numeric value of a decimal digit string. -/
def digitsToNat (cs : List Char) : Nat :=
  cs.foldl (fun n c => n * 10 + (c.toNat - '0'.toNat)) 0

/-- One dotted-quad field: nonempty decimal digits valued at most 255. -/
def isIPv4Field (cs : List Char) : Bool :=
  decide (cs ≠ []) && cs.all Char.isDigit && decide (digitsToNat cs ≤ 255)

/-- Modelled from the Go standard library `net.ParseIP` (IPv4 side):
four dot-separated decimal fields, each at most 255. -/
def isIPv4 (s : String) : Bool :=
  match splitOnChar '.' s.toList with
  | [a, b, c, d] =>
    isIPv4Field a && isIPv4Field b && isIPv4Field c && isIPv4Field d
  | _ => false

/-- A hexadecimal digit. -/
def isHexDigit (c : Char) : Bool :=
  c.isDigit || ('a' ≤ c && c ≤ 'f') || ('A' ≤ c && c ≤ 'F')

/-- One IPv6 group: one to four hexadecimal digits. -/
def isHexGroup (cs : List Char) : Bool :=
  decide (1 ≤ cs.length) && decide (cs.length ≤ 4) && cs.all isHexDigit

/-- Counts 16-bit groups in a colon-split tail, allowing a trailing
embedded IPv4 (which counts as two groups); `none` on an invalid group. -/
def groupsCount : List (List Char) → Option Nat
  | [] => some 0
  | [g] =>
    if isHexGroup g then some 1
    else if isIPv4 (String.mk g) then some 2
    else none
  | g :: rest =>
    if isHexGroup g then (groupsCount rest).map (· + 1) else none

/-- Counts 16-bit groups in a colon-split prefix (no embedded IPv4). -/
def hexGroupsCount : List (List Char) → Option Nat
  | [] => some 0
  | g :: rest =>
    if isHexGroup g then (hexGroupsCount rest).map (· + 1) else none

/-- Modelled from the Go standard library `net.ParseIP` (IPv6 side): hex
groups separated by colons, eight groups without `::`, at most seven with
a single `::`, optionally ending in an embedded IPv4 address. -/
def isIPv6 (s : String) : Bool :=
  match splitColonColon s.toList with
  | [whole] =>
    match groupsCount (splitOnChar ':' whole) with
    | some n => decide (n = 8)
    | none => false
  | [l, r] =>
    let lg := if l = [] then some 0 else hexGroupsCount (splitOnChar ':' l)
    let rg := if r = [] then some 0 else groupsCount (splitOnChar ':' r)
    match lg, rg with
    | some a, some b => decide (a + b ≤ 7)
    | _, _ => false
  | _ => false

/-- Modelled from the Go standard library `net.ParseIP ≠ nil`. -/
def parseIPBool (s : String) : Bool :=
  isIPv4 s || isIPv6 s

/-- `defaultPort` of the DNS resolver. -/
def defaultPort : String := "443"

/-- `parseTarget` (`net/naming/disco.go`): empty targets are the missing
address error; IP literals resolve to the default port; otherwise
`SplitHostPort` is tried as-is (empty host becoming `localhost`, empty
port becoming the default) and then with `":443"` appended. -/
def parseTarget (target : String) : Except NErr (String × String) :=
  if target = "" then Except.error NErr.missingAddr
  else if parseIPBool target then Except.ok (target, defaultPort)
  else
    match splitHostPort target with
    | some hp =>
      let h := if hp.1 = "" then "localhost" else hp.1
      let p := if hp.2 = "" then defaultPort else hp.2
      Except.ok (h, p)
    | none =>
      match splitHostPort (target ++ ":" ++ defaultPort) with
      | some hp => Except.ok hp
      | none => Except.error (NErr.invalidTarget target)

/-! ## Generic helper lemmas -/

theorem mapCongrMem {α β : Type} (l : List α) (f g : α → β)
    (h : ∀ a ∈ l, f a = g a) : l.map f = l.map g := by
  induction l with
  | nil => rfl
  | cons a rest ih =>
    simp only [List.map_cons]
    exact congrArg₂ (· :: ·) (h a (by simp))
      (ih fun b hb => h b (List.mem_cons_of_mem a hb))

theorem countB_append {α : Type} (p : α → Bool) (l r : List α) :
    countB p (l ++ r) = countB p l + countB p r := by
  induction l with
  | nil => simp [countB]
  | cons a rest ih => simp [countB, ih]; omega

theorem countB_map {α β : Type} (p : β → Bool) (f : α → β) (l : List α) :
    countB p (l.map f) = countB (fun a => p (f a)) l := by
  induction l with
  | nil => rfl
  | cons a rest ih => simp [countB, ih]

theorem countB_eq_zero {α : Type} (p : α → Bool) (l : List α)
    (h : ∀ a ∈ l, p a = false) : countB p l = 0 := by
  induction l with
  | nil => rfl
  | cons a rest ih =>
    simp [countB, h a (by simp), ih fun b hb => h b (List.mem_cons_of_mem a hb)]

theorem countB_eq_one {α : Type} (p : α → Bool) (l : List α) (a : α)
    (hnd : l.Nodup) (hmem : a ∈ l) (hpa : p a = true)
    (huniq : ∀ b ∈ l, p b = true → b = a) : countB p l = 1 := by
  induction l with
  | nil => cases hmem
  | cons x rest ih =>
    rcases List.mem_cons.mp hmem with h | h
    · subst h
      have hrest : countB p rest = 0 := by
        apply countB_eq_zero
        intro b hb
        by_contra hb'
        have : b = a := huniq b (List.mem_cons_of_mem a hb)
          (by revert hb'; cases p b <;> simp)
        subst this
        exact (List.nodup_cons.mp hnd).1 hb
      simp [countB, hpa, hrest]
    · have hxa : x ≠ a := by
        intro hx
        subst hx
        exact (List.nodup_cons.mp hnd).1 h
      have hpx : p x = false := by
        by_contra hx'
        exact hxa (huniq x (by simp) (by revert hx'; cases p x <;> simp))
      simp [countB, hpx]
      exact ih (List.nodup_cons.mp hnd).2 h
        fun b hb => huniq b (List.mem_cons_of_mem x hb)

/-! ## Association-list lemmas -/

theorem lookupKey_insertKey {α : Type} (m : List (String × α)) (k k' : String)
    (v : α) :
    lookupKey (insertKey m k v) k' = if k = k' then some v else lookupKey m k' := by
  induction m with
  | nil => simp [insertKey, lookupKey]
  | cons p rest ih =>
    by_cases h1 : p.1 = k
    · simp [insertKey, h1, lookupKey]
      by_cases h2 : k = k' <;> simp [h2]
    · have : ¬ (p.1 = k) := h1
      simp only [insertKey, this, if_false]
      by_cases h2 : p.1 = k'
      · have : k ≠ k' := fun he => h1 (h2.trans he.symm)
        simp [lookupKey, h2, this]
      · simp [lookupKey, h2, ih]

theorem mem_insertKey {α : Type} (m : List (String × α)) (k : String) (v : α)
    (p : String × α) (h : p ∈ insertKey m k v) : p = (k, v) ∨ p ∈ m := by
  induction m with
  | nil => simp [insertKey] at h; simp [h]
  | cons q rest ih =>
    by_cases h1 : q.1 = k
    · simp only [insertKey, h1, if_true] at h
      rcases List.mem_cons.mp h with h | h
      · exact Or.inl h
      · exact Or.inr (List.mem_cons_of_mem q h)
    · simp only [insertKey, h1, if_false] at h
      rcases List.mem_cons.mp h with h | h
      · exact Or.inr (h ▸ List.mem_cons_self q rest)
      · rcases ih h with h | h
        · exact Or.inl h
        · exact Or.inr (List.mem_cons_of_mem q h)

theorem lookupKey_mem {α : Type} (m : List (String × α)) (k : String) (v : α)
    (h : lookupKey m k = some v) : (k, v) ∈ m := by
  induction m with
  | nil => simp [lookupKey] at h
  | cons p rest ih =>
    by_cases h1 : p.1 = k
    · simp [lookupKey, h1] at h
      have hp : p = (k, v) := by cases p; simp_all
      exact List.mem_cons.mpr (Or.inl hp.symm)
    · simp [lookupKey, h1] at h
      exact List.mem_cons_of_mem p (ih h)

theorem lookupKey_isSome_insertKey {α : Type} (m : List (String × α))
    (k k' : String) (v : α) (h : (lookupKey m k').isSome) :
    (lookupKey (insertKey m k v) k').isSome := by
  rw [lookupKey_insertKey]
  by_cases h2 : k = k' <;> simp [h2, h]

/-! ## C1: first `Next` of a fresh local-discovery watcher -/

/-- C1: the claim states that the first successful `Next` on a Watcher
freshly obtained from `Service(...).Watch()` returns the complete current
membership as `Add` events; in particular, after registering instance
`a` at host `10.0.0.1` port `8080`, the first `Next` should yield exactly
one `Add` event for `a`.  The code does the opposite: `Watch` creates an
empty subscription channel that is never seeded with the catalogue, so on
this very input the first `Next` blocks instead of returning the `Add`
event — contradicting the `Watcher` interface documentation in
`disco/watcher.go` ("The first call should get the full set of the
results"). -/
theorem c1_first_next_blocks_after_register :
    agentRegister "unused-uuid" newLocalAgent
        ⟨"a", "svc", "10.0.0.1", 8080, []⟩ =
      RegOutcome.ok ⟨[("a", ⟨true, "a", "svc", "10.0.0.1", 8080, []⟩)], []⟩
        "a" ∧
    (agentWatch ⟨[("a", ⟨true, "a", "svc", "10.0.0.1", 8080, []⟩)], []⟩).2 =
      Chan.mk [] false ∧
    localWatcherNext (Chan.mk [] false) = WNext.blocked := by
  refine ⟨rfl, rfl, rfl⟩

/-! ## C3: close idempotence and post-close `Next` -/

/-- C3 (counterexample): calling `Close` twice on a fresh passthrough
watcher is a double `close` of its update channel, which panics — the
claim that `Close` is never-panicking/idempotent for every watcher is
false. -/
theorem c3_close_twice_panics_cex :
    Except.bind (chanClose (passthroughResolve "myservice")) chanClose =
      Except.error "close of closed channel" := rfl

/-- C3 (amended): a single `Close` succeeds on an open channel-backed
watcher, but a second `Close` panics (double channel close) for the
passthrough, IP one-shot and local-subscription watchers; after `Close`,
`Next` first drains any update still buffered in the channel, and on the
drained closed channel every `Next` returns the `ErrWatcherClosed`
sentinel without blocking; only the DNS watcher's `Close` (a context
cancellation) is idempotent, and its `Next` returns the sentinel after
`Close`. -/
theorem c3_close_next_amended (c : Chan NUpdate) (ce : Chan Event)
    (s : DnsWatcherState) :
    (c.closed = false → chanClose c = Except.ok { c with closed := true }) ∧
    (c.closed = true → chanClose c = Except.error "close of closed channel") ∧
    (c.closed = true → c.buf = [] →
      passThroughNext c = WNext.err NErr.watcherClosed ∧
      ipWatcherNext c = WNext.err NErr.watcherClosed) ∧
    (∀ u rest, c.buf = u :: rest →
      passThroughNext c = WNext.ret [u] { c with buf := rest }) ∧
    (ce.closed = true → ce.buf = [] →
      localWatcherNext ce = WNext.err NErr.watcherClosed) ∧
    dnsClose (dnsClose s) = dnsClose s ∧
    dnsNextStep (dnsClose s) = DnsNextOut.err NErr.watcherClosed := by
  refine ⟨?_, ?_, ?_, ?_, ?_, rfl, rfl⟩
  · intro h
    simp [chanClose, h]
  · intro h
    simp [chanClose, h]
  · intro h hb
    constructor <;> simp [passThroughNext, ipWatcherNext, chanRecv, h, hb]
  · intro u rest hb
    simp [passThroughNext, chanRecv, hb]
  · intro h hb
    simp [localWatcherNext, chanRecv, h, hb]

/-- Witness for C3 (amended) at concrete closed and drained channels. -/
theorem c3_close_next_amended_witness :
    passThroughNext (Chan.mk ([] : List NUpdate) true) =
      WNext.err NErr.watcherClosed ∧
    localWatcherNext (Chan.mk ([] : List Event) true) =
      WNext.err NErr.watcherClosed ∧
    chanClose (Chan.mk ([] : List NUpdate) false) =
      Except.ok (Chan.mk [] true) := by
  have h := c3_close_next_amended (Chan.mk [] true) (Chan.mk [] true)
    ⟨false, []⟩
  have h0 := c3_close_next_amended (Chan.mk ([] : List NUpdate) false)
    (Chan.mk [] true) ⟨false, []⟩
  exact ⟨(h.2.2.1 rfl rfl).1, (h.2.2.2.2.1 rfl rfl), h0.1 rfl⟩

/-! ## C5: disco-to-address adapter translation of `Update` events -/

/-- C5: in `discoWatcher.Next`, an `Update` discovery event whose instance
address equals the cached address for that ID produces no address
updates, while an `Update` event whose address changed from `A` to `B`
produces exactly `Delete(A)` followed by `Add(B)` within one return
value. -/
theorem c5_disco_update_translation (cache : List (String × Instance))
    (inst old : Instance) (h : lookupKey cache inst.id = some old) :
    (old.addr = inst.addr →
      discoProcess cache [⟨DOp.update, inst⟩] = ([], cache)) ∧
    (old.addr ≠ inst.addr →
      discoProcess cache [⟨DOp.update, inst⟩] =
        ([⟨NOp.delete, old.addr, none⟩, ⟨NOp.add, inst.addr, none⟩], cache)) := by
  constructor <;> intro had <;> simp [discoProcess, h, had]

/-- Witness for C5: a cached instance at `1.2.3.4:80`; an unchanged
`Update` yields nothing, a move to `5.6.7.8:80` yields delete-then-add. -/
theorem c5_disco_update_translation_witness :
    discoProcess [("x", ⟨true, "x", "svc", "1.2.3.4", 80, []⟩)]
        [⟨DOp.update, ⟨true, "x", "svc", "1.2.3.4", 80, []⟩⟩] =
      ([], [("x", ⟨true, "x", "svc", "1.2.3.4", 80, []⟩)]) ∧
    discoProcess [("x", ⟨true, "x", "svc", "1.2.3.4", 80, []⟩)]
        [⟨DOp.update, ⟨true, "x", "svc", "5.6.7.8", 80, []⟩⟩] =
      ([⟨NOp.delete, "1.2.3.4:80", none⟩, ⟨NOp.add, "5.6.7.8:80", none⟩],
        [("x", ⟨true, "x", "svc", "1.2.3.4", 80, []⟩)]) := by
  have h1 := c5_disco_update_translation
    [("x", ⟨true, "x", "svc", "1.2.3.4", 80, []⟩)]
    ⟨true, "x", "svc", "1.2.3.4", 80, []⟩
    ⟨true, "x", "svc", "1.2.3.4", 80, []⟩ (by decide)
  have h2 := c5_disco_update_translation
    [("x", ⟨true, "x", "svc", "1.2.3.4", 80, []⟩)]
    ⟨true, "x", "svc", "5.6.7.8", 80, []⟩
    ⟨true, "x", "svc", "1.2.3.4", 80, []⟩ (by decide)
  refine ⟨h1.1 (by decide), ?_⟩
  have := h2.2 (by decide)
  simpa [Instance.addr, joinHostPort] using this

/-! ## C8: registry `Register` fail-fast policy -/

/-- C8: `Register(scheme, builder)` panics exactly when the builder is nil
or the scheme is already registered; otherwise it stores the builder and
returns normally. -/
theorem c8_register_panics_iff (t : List (String × BuilderTag)) (n : String)
    (b : Option BuilderTag) :
    ((∃ msg, registerBuilder t n b = RegisterResult.panicked msg) ↔
      (b = none ∨ (lookupKey t n).isSome = true)) ∧
    (∀ bb, b = some bb → lookupKey t n = none →
      registerBuilder t n b = RegisterResult.ok (insertKey t n bb)) := by
  constructor
  · cases b with
    | none => simp [registerBuilder]
    | some bb =>
      cases hl : (lookupKey t n).isSome <;> simp [registerBuilder, hl]
  · intro bb hb hl
    subst hb
    simp [registerBuilder, hl]

/-- Witness for C8: registering a new scheme succeeds; registering a nil
builder panics. -/
theorem c8_register_panics_iff_witness :
    registerBuilder builderTable "foo" (some BuilderTag.dns) =
      RegisterResult.ok (insertKey builderTable "foo" BuilderTag.dns) ∧
    (∃ msg, registerBuilder builderTable "dns" (some BuilderTag.dns) =
      RegisterResult.panicked msg) := by
  have h1 := c8_register_panics_iff builderTable "foo" (some BuilderTag.dns)
  have h2 := c8_register_panics_iff builderTable "dns" (some BuilderTag.dns)
  exact ⟨h1.2 BuilderTag.dns rfl (by decide), h2.1.mpr (Or.inr (by decide))⟩

/-! ## C7: default-scheme dispatch equivalence -/

/-- C7: with the default scheme at `passthrough`, resolving the bare
target `myservice` is identical to resolving `passthrough://myservice`:
both dispatch the same parsed URL to the passthrough builder, whose
watcher holds the single `Add` update for the re-serialised URI. -/
theorem c7_default_scheme_equiv :
    resolveDispatch "myservice" = resolveDispatch "passthrough://myservice" ∧
    resolveDispatch "myservice" =
      Except.ok (BuilderTag.passthrough, URL.mk "passthrough" "myservice" "" "") ∧
    buildPassthroughModel (URL.mk "passthrough" "myservice" "" "") =
      Chan.mk [⟨NOp.add, "passthrough://myservice", none⟩] false := by
  refine ⟨rfl, rfl, rfl⟩

/-! ## C10: singleton instance lists in the services map -/

theorem servicesLoop_singleton_inv (tags : List String)
    (acc : List (String × ServiceV)) (reg : List (String × Instance))
    (h : ∀ p ∈ acc, p.2.instances.length = 1) :
    ∀ p ∈ servicesLoop tags acc reg, p.2.instances.length = 1 := by
  induction reg generalizing acc with
  | nil => exact h
  | cons q rest ih =>
    intro p hp
    refine ih (insertKey acc q.2.name ⟨q.2.name, [q.2]⟩) ?_ p hp
    intro r hr
    rcases mem_insertKey _ _ _ _ hr with h1 | h1
    · subst h1; rfl
    · exact h r h1

/-- C10: every `Service` value in the map built by `agent.services`
carries exactly one instance — the map is keyed by service name and each
catalogue entry overwrites the whole entry for its name with a
singleton-instance service, so multiple registered instances of one name
never accumulate. -/
theorem c10_services_singleton (st : AgentState) (tags : List String)
    (name : String) (svc : ServiceV)
    (h : lookupKey (agentServices st tags) name = some svc) :
    svc.instances.length = 1 := by
  have hmem := lookupKey_mem _ _ _ h
  exact servicesLoop_singleton_inv tags [] st.registry (by simp) (name, svc) hmem

/-- Witness for C10: two instances registered under the same service name
still yield a singleton instance list. -/
theorem c10_services_singleton_witness :
    ((lookupKey
        (agentServices
          ⟨[("i1", ⟨false, "i1", "svc", "h1", 1, []⟩),
            ("i2", ⟨false, "i2", "svc", "h2", 2, []⟩)], []⟩ [])
        "svc").map (fun s => s.instances.length)) = some 1 := by
  have h := c10_services_singleton
    ⟨[("i1", ⟨false, "i1", "svc", "h1", 1, []⟩),
      ("i2", ⟨false, "i2", "svc", "h2", 2, []⟩)], []⟩ [] "svc"
    ⟨"svc", [⟨false, "i2", "svc", "h2", 2, []⟩]⟩ (by decide)
  simp [show lookupKey
      (agentServices
        ⟨[("i1", ⟨false, "i1", "svc", "h1", 1, []⟩),
          ("i2", ⟨false, "i2", "svc", "h2", 2, []⟩)], []⟩ [])
      "svc" = some ⟨"svc", [⟨false, "i2", "svc", "h2", 2, []⟩]⟩ from by decide, h]

/-! ## C6: tag filtering of `Service`/`Services` -/

/-- C6 (counterexample): the claim says the queries are tag-filtered, so
an instance lacking the requested tag `eu` must be excluded; but the local
agent returns it anyway — `agent.services` never reads its `tags`
parameter. -/
theorem c6_tags_not_filtered_cex :
    lookupKey
        (agentServices ⟨[("i", ⟨false, "i", "svc", "h", 1, []⟩)], []⟩ ["eu"])
        "svc" =
      some ⟨"svc", [⟨false, "i", "svc", "h", 1, []⟩]⟩ ∧
    "eu" ∉ (Instance.tags ⟨false, "i", "svc", "h", 1, []⟩) := by
  exact ⟨by decide, by decide⟩

theorem servicesLoop_tags_irrelevant (t1 t2 : List String)
    (acc : List (String × ServiceV)) (reg : List (String × Instance)) :
    servicesLoop t1 acc reg = servicesLoop t2 acc reg := by
  induction reg generalizing acc with
  | nil => rfl
  | cons q rest ih => exact ih _

theorem servicesLoop_preserves_isSome (tags : List String) (k : String)
    (acc : List (String × ServiceV)) (reg : List (String × Instance))
    (h : (lookupKey acc k).isSome) :
    (lookupKey (servicesLoop tags acc reg) k).isSome := by
  induction reg generalizing acc with
  | nil => exact h
  | cons q rest ih => exact ih _ (lookupKey_isSome_insertKey _ _ _ _ h)

theorem servicesLoop_presence (tags : List String)
    (acc : List (String × ServiceV)) (reg : List (String × Instance)) :
    ∀ p ∈ reg, (lookupKey (servicesLoop tags acc reg) p.2.name).isSome := by
  induction reg generalizing acc with
  | nil => intro p hp; cases hp
  | cons q rest ih =>
    intro p hp
    rcases List.mem_cons.mp hp with h1 | h1
    · subst h1
      refine servicesLoop_preserves_isSome tags p.2.name _ rest ?_
      rw [lookupKey_insertKey]
      simp
    · exact ih _ p h1

/-- C6 (amended): the local agent's `Service`/`Services` queries are not
tag-filtered — the `tags` arguments have no effect on the result, and
every registered instance's service name is present in the returned map
whatever tags were requested. -/
theorem c6_services_ignore_tags (st : AgentState) (tags tags' : List String) :
    agentServices st tags = agentServices st tags' ∧
    (∀ p ∈ st.registry,
      (lookupKey (agentServices st tags) p.2.name).isSome) := by
  constructor
  · exact servicesLoop_tags_irrelevant tags tags' [] st.registry
  · intro p hp
    exact servicesLoop_presence tags [] st.registry p hp

/-- Witness for C6 (amended): requesting tag `eu` on a catalogue whose
only instance has no tags still returns that instance's service. -/
theorem c6_services_ignore_tags_witness :
    agentServices ⟨[("i", ⟨false, "i", "svc", "h", 1, []⟩)], []⟩ ["eu"] =
      agentServices ⟨[("i", ⟨false, "i", "svc", "h", 1, []⟩)], []⟩ [] ∧
    (lookupKey
      (agentServices ⟨[("i", ⟨false, "i", "svc", "h", 1, []⟩)], []⟩ ["eu"])
      "svc").isSome := by
  have h := c6_services_ignore_tags
    ⟨[("i", ⟨false, "i", "svc", "h", 1, []⟩)], []⟩ ["eu"] []
  exact ⟨h.1, h.2 ("i", ⟨false, "i", "svc", "h", 1, []⟩) (by decide)⟩

/-! ## C2: Diff engine event counting -/

theorem filter_insertKey_false {α : Type} (m : List (String × α)) (k : String)
    (v : α) (P : String → Bool) (hk : P k = false) :
    (insertKey m k v).filter (fun p => P p.1) = m.filter (fun p => P p.1) := by
  induction m with
  | nil => simp [insertKey, hk]
  | cons q rest ih =>
    by_cases h1 : q.1 = k
    · simp only [insertKey, h1, if_true]
      rw [List.filter_cons, List.filter_cons]
      simp [hk, h1]
    · simp only [insertKey, h1, if_false]
      rw [List.filter_cons, List.filter_cons]
      by_cases h2 : P q.1 = true <;> simp [h2, ih]

theorem diffFirstPass_events (m : List (String × Instance))
    (state : List Instance) (h : (state.map Instance.id).Nodup) :
    (diffFirstPass m state).1 = state.map (fun i =>
      if (lookupKey m i.id).isSome then (⟨DOp.update, i⟩ : Event)
      else ⟨DOp.add, i⟩) := by
  induction state generalizing m with
  | nil => rfl
  | cons a rest ih =>
    have h' : a.id ∉ rest.map Instance.id ∧ (rest.map Instance.id).Nodup := by
      rw [List.map_cons] at h
      exact List.nodup_cons.mp h
    have hstep : (diffFirstPass m (a :: rest)).1 =
        (if (lookupKey m a.id).isSome then (⟨DOp.update, a⟩ : Event)
          else ⟨DOp.add, a⟩) :: (diffFirstPass (insertKey m a.id a) rest).1 :=
      rfl
    rw [hstep, List.map_cons, ih _ h'.2]
    refine congrArg₂ (· :: ·) rfl ?_
    apply mapCongrMem
    intro i hi
    have hne : a.id ≠ i.id := by
      intro he
      exact h'.1 (he ▸ List.mem_map_of_mem Instance.id hi)
    rw [lookupKey_insertKey]
    simp [hne]

theorem diffFirstPass_snd_filter (m : List (String × Instance))
    (state : List Instance) (P : String → Bool)
    (h : ∀ i ∈ state, P i.id = false) :
    ((diffFirstPass m state).2).filter (fun p => P p.1) =
      m.filter (fun p => P p.1) := by
  induction state generalizing m with
  | nil => rfl
  | cons a rest ih =>
    simp only [diffFirstPass]
    rw [ih _ fun i hi => h i (List.mem_cons_of_mem a hi)]
    exact filter_insertKey_false m a.id a P (h a (List.mem_cons_self a rest))

theorem diffDeletePass_events (running : List String)
    (m : List (String × Instance)) :
    (diffDeletePass running m).1 =
      (m.filter (fun p => decide (p.1 ∉ running))).map
        (fun p => (⟨DOp.delete, p.2⟩ : Event)) := by
  induction m with
  | nil => rfl
  | cons q rest ih =>
    obtain ⟨k, v⟩ := q
    by_cases hq : k ∈ running <;>
      simp [diffDeletePass, hq, ih, List.filter_cons]

/-- C2: `Diff.Apply` from a well-formed snapshot (keys are exactly the
stored instances' unique IDs) to a current state with pairwise distinct
IDs emits exactly one `Add` event per current instance whose ID is absent
from the snapshot, exactly one (unconditional) `Update` event per current
instance whose ID is present, and exactly one `Delete` event per snapshot
entry whose ID is absent from the current state. -/
theorem c2_diff_apply_counts (m : List (String × Instance))
    (state : List Instance) (hm : (keysOf m).Nodup)
    (hwf : ∀ p ∈ m, p.2.id = p.1) (hs : (state.map Instance.id).Nodup) :
    (∀ inst ∈ state, lookupKey m inst.id = none →
      occurrences (⟨DOp.add, inst⟩ : Event) (diffApply m state).1 = 1) ∧
    (∀ inst ∈ state, (lookupKey m inst.id).isSome →
      occurrences (⟨DOp.update, inst⟩ : Event) (diffApply m state).1 = 1) ∧
    (∀ k v, (k, v) ∈ m → k ∉ state.map Instance.id →
      occurrences (⟨DOp.delete, v⟩ : Event) (diffApply m state).1 = 1) := by
  have hstateNd : state.Nodup := List.Nodup.of_map _ hs
  have hmNd : m.Nodup := List.Nodup.of_map _ hm
  have hsplit : (diffApply m state).1 =
      (diffFirstPass m state).1 ++
        (diffDeletePass (state.map Instance.id) (diffFirstPass m state).2).1 := rfl
  have hfp := diffFirstPass_events m state hs
  have hdp := diffDeletePass_events (state.map Instance.id)
    (diffFirstPass m state).2
  have hfl := diffFirstPass_snd_filter m state
    (fun k => decide (k ∉ state.map Instance.id))
    (fun i hi => by simp [List.mem_map_of_mem Instance.id hi])
  refine ⟨?_, ?_, ?_⟩
  · intro inst hmem hlk
    rw [occurrences, hsplit, countB_append, hfp, hdp, hfl, countB_map,
      countB_map]
    have hD : countB
        (fun p : String × Instance =>
          decide ((⟨DOp.delete, p.2⟩ : Event) = ⟨DOp.add, inst⟩))
        (m.filter fun p => decide (p.1 ∉ state.map Instance.id)) = 0 := by
      apply countB_eq_zero
      intro p _
      simp [Event.mk.injEq]
    have hA : countB
        (fun i : Instance =>
          decide ((if (lookupKey m i.id).isSome then (⟨DOp.update, i⟩ : Event)
            else ⟨DOp.add, i⟩) = ⟨DOp.add, inst⟩)) state = 1 := by
      apply countB_eq_one _ _ inst hstateNd hmem
      · simp [hlk]
      · intro b _ hpb
        by_cases hlb : (lookupKey m b.id).isSome
        · simp [hlb, Event.mk.injEq] at hpb
        · simp only [hlb, if_false] at hpb
          simpa [Event.mk.injEq] using hpb
    rw [hA, hD]
  · intro inst hmem hlk
    rw [occurrences, hsplit, countB_append, hfp, hdp, hfl, countB_map,
      countB_map]
    have hD : countB
        (fun p : String × Instance =>
          decide ((⟨DOp.delete, p.2⟩ : Event) = ⟨DOp.update, inst⟩))
        (m.filter fun p => decide (p.1 ∉ state.map Instance.id)) = 0 := by
      apply countB_eq_zero
      intro p _
      simp [Event.mk.injEq]
    have hA : countB
        (fun i : Instance =>
          decide ((if (lookupKey m i.id).isSome then (⟨DOp.update, i⟩ : Event)
            else ⟨DOp.add, i⟩) = ⟨DOp.update, inst⟩)) state = 1 := by
      apply countB_eq_one _ _ inst hstateNd hmem
      · simp [hlk]
      · intro b _ hpb
        by_cases hlb : (lookupKey m b.id).isSome
        · simp only [hlb, if_true] at hpb
          simpa [Event.mk.injEq] using hpb
        · simp [hlb, Event.mk.injEq] at hpb
    rw [hA, hD]
  · intro k v hmem hk
    rw [occurrences, hsplit, countB_append, hfp, hdp, hfl, countB_map,
      countB_map]
    have hA : countB
        (fun i : Instance =>
          decide ((if (lookupKey m i.id).isSome then (⟨DOp.update, i⟩ : Event)
            else ⟨DOp.add, i⟩) = ⟨DOp.delete, v⟩)) state = 0 := by
      apply countB_eq_zero
      intro i _
      by_cases hlb : (lookupKey m i.id).isSome <;>
        simp [hlb, Event.mk.injEq]
    have hvk : v.id = k := hwf (k, v) hmem
    have hD : countB
        (fun p : String × Instance =>
          decide ((⟨DOp.delete, p.2⟩ : Event) = ⟨DOp.delete, v⟩))
        (m.filter fun p => decide (p.1 ∉ state.map Instance.id)) = 1 := by
      apply countB_eq_one _ _ (k, v) (List.Nodup.filter _ hmNd)
      · exact List.mem_filter.mpr ⟨hmem, by simp [hk]⟩
      · simp
      · intro b hb hpb
        have hbm : b ∈ m := (List.mem_filter.mp hb).1
        have hb2 : b.2 = v := by simpa [Event.mk.injEq] using hpb
        have hb1 : b.1 = k := by
          have := hwf b hbm
          rw [hb2] at this
          rw [← this, hvk]
        obtain ⟨b1, b2⟩ := b
        simp only at hb1 hb2
        rw [hb1, hb2]
    rw [hA, hD]

/-- Witness for C2: from snapshot with IDs `a`, `b` to state with IDs `b`,
`c`, the events are exactly one `Update` of `b`, one `Add` of `c`, one
`Delete` of `a`. -/
theorem c2_diff_apply_counts_witness :
    occurrences (⟨DOp.add, ⟨false, "c", "svc", "h3", 3, []⟩⟩ : Event)
        (diffApply
          [("a", ⟨false, "a", "svc", "h1", 1, []⟩),
            ("b", ⟨false, "b", "svc", "h2", 2, []⟩)]
          [⟨false, "b", "svc", "h2x", 2, []⟩,
            ⟨false, "c", "svc", "h3", 3, []⟩]).1 = 1 ∧
    occurrences (⟨DOp.update, ⟨false, "b", "svc", "h2x", 2, []⟩⟩ : Event)
        (diffApply
          [("a", ⟨false, "a", "svc", "h1", 1, []⟩),
            ("b", ⟨false, "b", "svc", "h2", 2, []⟩)]
          [⟨false, "b", "svc", "h2x", 2, []⟩,
            ⟨false, "c", "svc", "h3", 3, []⟩]).1 = 1 ∧
    occurrences (⟨DOp.delete, ⟨false, "a", "svc", "h1", 1, []⟩⟩ : Event)
        (diffApply
          [("a", ⟨false, "a", "svc", "h1", 1, []⟩),
            ("b", ⟨false, "b", "svc", "h2", 2, []⟩)]
          [⟨false, "b", "svc", "h2x", 2, []⟩,
            ⟨false, "c", "svc", "h3", 3, []⟩]).1 = 1 := by
  have h := c2_diff_apply_counts
    [("a", ⟨false, "a", "svc", "h1", 1, []⟩),
      ("b", ⟨false, "b", "svc", "h2", 2, []⟩)]
    [⟨false, "b", "svc", "h2x", 2, []⟩, ⟨false, "c", "svc", "h3", 3, []⟩]
    (by decide) (by decide) (by decide)
  exact ⟨h.1 ⟨false, "c", "svc", "h3", 3, []⟩ (by decide) (by decide),
    h.2.1 ⟨false, "b", "svc", "h2x", 2, []⟩ (by decide) (by decide),
    h.2.2 "a" ⟨false, "a", "svc", "h1", 1, []⟩ (by decide) (by decide)⟩

/-! ## C4: DNS watcher address-set delta -/

theorem lookupKey_of_mem_nodup {α : Type} (m : List (String × α)) (k : String)
    (v : α) (hnd : (keysOf m).Nodup) (hmem : (k, v) ∈ m) :
    lookupKey m k = some v := by
  induction m with
  | nil => cases hmem
  | cons q rest ih =>
    have h' : q.1 ∉ keysOf rest ∧ (keysOf rest).Nodup := by
      rw [keysOf, List.map_cons] at hnd
      exact List.nodup_cons.mp hnd
    rcases List.mem_cons.mp hmem with h1 | h1
    · rw [← h1]
      simp [lookupKey]
    · have hne : q.1 ≠ k := by
        intro he
        exact h'.1 (he ▸ List.mem_map_of_mem Prod.fst h1)
      simp [lookupKey, hne, ih h'.2 h1]

theorem compileDeletes_eq (newAddrs cur : List (String × NUpdate)) :
    compileDeletes newAddrs cur =
      (cur.filter (fun p => !(lookupKey newAddrs p.1).isSome)).map
        (fun p => { p.2 with op := NOp.delete }) := by
  induction cur with
  | nil => rfl
  | cons q rest ih =>
    obtain ⟨k, v⟩ := q
    cases hq : lookupKey newAddrs k with
    | none => simp [compileDeletes, hq, ih, List.filter_cons]
    | some w => simp [compileDeletes, hq, ih, List.filter_cons]

theorem compileAdds_eq (curAddrs news : List (String × NUpdate)) :
    compileAdds curAddrs news =
      (news.filter (fun p => !(lookupKey curAddrs p.1).isSome)).map Prod.snd := by
  induction news with
  | nil => rfl
  | cons q rest ih =>
    obtain ⟨k, v⟩ := q
    cases hq : lookupKey curAddrs k with
    | none => simp [compileAdds, hq, ih, List.filter_cons]
    | some w => simp [compileAdds, hq, ih, List.filter_cons]

/-- C4: `compileUpdate` between the previous and the newly resolved
address sets (both keyed by address, each stored record carrying its key
as `Addr`, new records tagged `Add` as the lookups build them) emits
exactly one `Add` update per address present now but not before, exactly
one `Delete` update per address present before but not now — the previous
record reused with `Op` forced to `Delete`, metadata preserved — and no
update at all for an address present in both sets. -/
theorem c4_compile_update_delta (cur new : List (String × NUpdate))
    (hc : (keysOf cur).Nodup) (hn : (keysOf new).Nodup)
    (hwc : ∀ p ∈ cur, p.2.addr = p.1)
    (hwn : ∀ p ∈ new, p.2.addr = p.1 ∧ p.2.op = NOp.add) :
    (∀ p ∈ new, lookupKey cur p.1 = none →
      occurrences (⟨NOp.add, p.1, p.2.metadata⟩ : NUpdate)
        (compileUpdate cur new) = 1) ∧
    (∀ p ∈ cur, lookupKey new p.1 = none →
      occurrences (⟨NOp.delete, p.1, p.2.metadata⟩ : NUpdate)
        (compileUpdate cur new) = 1) ∧
    (∀ a, (lookupKey cur a).isSome → (lookupKey new a).isSome →
      countB (fun u => decide (u.addr = a)) (compileUpdate cur new) = 0) := by
  have hcNd : cur.Nodup := List.Nodup.of_map _ hc
  have hnNd : new.Nodup := List.Nodup.of_map _ hn
  have hsplit : compileUpdate cur new =
      compileDeletes new cur ++ compileAdds cur new := rfl
  refine ⟨?_, ?_, ?_⟩
  · intro p hmem hlk
    have hp2 : p.2 = ⟨NOp.add, p.1, p.2.metadata⟩ := by
      obtain ⟨ha, ho⟩ := hwn p hmem
      rw [← ha, ← ho]
    rw [occurrences, hsplit, countB_append, compileDeletes_eq, compileAdds_eq,
      countB_map, countB_map]
    have hD : countB
        (fun q : String × NUpdate =>
          decide (({ q.2 with op := NOp.delete } : NUpdate) =
            ⟨NOp.add, p.1, p.2.metadata⟩))
        (cur.filter fun q => !(lookupKey new q.1).isSome) = 0 := by
      apply countB_eq_zero
      intro q _
      simp [NUpdate.mk.injEq]
    have hA : countB
        (fun q : String × NUpdate =>
          decide (q.2 = (⟨NOp.add, p.1, p.2.metadata⟩ : NUpdate)))
        (new.filter fun q => !(lookupKey cur q.1).isSome) = 1 := by
      apply countB_eq_one _ _ p (List.Nodup.filter _ hnNd)
      · exact List.mem_filter.mpr ⟨hmem, by simp [hlk]⟩
      · simp [← hp2]
      · intro b hb hpb
        have hbm : b ∈ new := (List.mem_filter.mp hb).1
        have hb2 : b.2 = ⟨NOp.add, p.1, p.2.metadata⟩ := by simpa using hpb
        have hb1 : b.1 = p.1 := by
          have := (hwn b hbm).1
          rw [hb2] at this
          exact this.symm
        have : b = (p.1, p.2) := by
          obtain ⟨b1, b2⟩ := b
          simp only at hb1 hb2
          rw [hb1, hb2, hp2]
        simpa using this
    rw [hA, hD]
  · intro p hmem hlk
    rw [occurrences, hsplit, countB_append, compileDeletes_eq, compileAdds_eq,
      countB_map, countB_map]
    have hA : countB
        (fun q : String × NUpdate =>
          decide (q.2 = (⟨NOp.delete, p.1, p.2.metadata⟩ : NUpdate)))
        (new.filter fun q => !(lookupKey cur q.1).isSome) = 0 := by
      apply countB_eq_zero
      intro q hq
      have hqm : q ∈ new := (List.mem_filter.mp hq).1
      apply decide_eq_false
      intro he
      have hop := (hwn q hqm).2
      rw [he] at hop
      cases hop
    have hD : countB
        (fun q : String × NUpdate =>
          decide (({ q.2 with op := NOp.delete } : NUpdate) =
            ⟨NOp.delete, p.1, p.2.metadata⟩))
        (cur.filter fun q => !(lookupKey new q.1).isSome) = 1 := by
      apply countB_eq_one _ _ p (List.Nodup.filter _ hcNd)
      · exact List.mem_filter.mpr ⟨hmem, by simp [hlk]⟩
      · simp [NUpdate.mk.injEq, hwc p hmem]
      · intro b hb hpb
        have hbm : b ∈ cur := (List.mem_filter.mp hb).1
        have hb2 : ({ b.2 with op := NOp.delete } : NUpdate) =
            ⟨NOp.delete, p.1, p.2.metadata⟩ := by simpa using hpb
        have hbaddr : b.2.addr = p.1 := by
          have : ({ b.2 with op := NOp.delete } : NUpdate).addr = p.1 := by
            rw [hb2]
          simpa using this
        have hb1 : b.1 = p.1 := by rw [← hwc b hbm, hbaddr]
        have hbv : b.2 = p.2 := by
          have h1 : lookupKey cur b.1 = some b.2 :=
            lookupKey_of_mem_nodup cur b.1 b.2 hc hbm
          have h2 : lookupKey cur p.1 = some p.2 :=
            lookupKey_of_mem_nodup cur p.1 p.2 hc hmem
          rw [hb1, h2] at h1
          exact (Option.some.injEq _ _ ▸ h1).symm
        obtain ⟨b1, b2⟩ := b
        simp only at hb1 hbv
        rw [hb1, hbv]
    rw [hA, hD]
  · intro a hca hna
    rw [hsplit, countB_append, compileDeletes_eq, compileAdds_eq,
      countB_map, countB_map]
    have hD : countB
        (fun q : String × NUpdate =>
          decide (({ q.2 with op := NOp.delete } : NUpdate).addr = a))
        (cur.filter fun q => !(lookupKey new q.1).isSome) = 0 := by
      apply countB_eq_zero
      intro q hq
      obtain ⟨hqm, hqf⟩ := List.mem_filter.mp hq
      have hkey : q.2.addr = q.1 := hwc q hqm
      simp only [Bool.not_eq_true'] at hqf
      have : q.1 ≠ a := by
        intro he
        rw [he] at hqf
        rw [hqf] at hna
        cases hna
      simp [hkey, this]
    have hA : countB
        (fun q : String × NUpdate => decide (q.2.addr = a))
        (new.filter fun q => !(lookupKey cur q.1).isSome) = 0 := by
      apply countB_eq_zero
      intro q hq
      obtain ⟨hqm, hqf⟩ := List.mem_filter.mp hq
      have hkey : q.2.addr = q.1 := (hwn q hqm).1
      simp only [Bool.not_eq_true'] at hqf
      have : q.1 ≠ a := by
        intro he
        rw [he] at hqf
        rw [hqf] at hca
        cases hca
      simp [hkey, this]
    rw [hA, hD]

/-- Witness for C4: previous set at address `1.2.3.4:80`, new set adding
`5.6.7.8:80`: exactly one `Add` for the new address and no update touching
the address present in both polls. -/
theorem c4_compile_update_delta_witness :
    occurrences (⟨NOp.add, "5.6.7.8:80", none⟩ : NUpdate)
        (compileUpdate [("1.2.3.4:80", ⟨NOp.add, "1.2.3.4:80", none⟩)]
          [("1.2.3.4:80", ⟨NOp.add, "1.2.3.4:80", none⟩),
            ("5.6.7.8:80", ⟨NOp.add, "5.6.7.8:80", none⟩)]) = 1 ∧
    countB (fun u => decide (u.addr = "1.2.3.4:80"))
        (compileUpdate [("1.2.3.4:80", ⟨NOp.add, "1.2.3.4:80", none⟩)]
          [("1.2.3.4:80", ⟨NOp.add, "1.2.3.4:80", none⟩),
            ("5.6.7.8:80", ⟨NOp.add, "5.6.7.8:80", none⟩)]) = 0 := by
  have h := c4_compile_update_delta
    [("1.2.3.4:80", ⟨NOp.add, "1.2.3.4:80", none⟩)]
    [("1.2.3.4:80", ⟨NOp.add, "1.2.3.4:80", none⟩),
      ("5.6.7.8:80", ⟨NOp.add, "5.6.7.8:80", none⟩)]
    (by decide) (by decide) (by decide) (by decide)
  exact ⟨h.1 ("5.6.7.8:80", ⟨NOp.add, "5.6.7.8:80", none⟩) (by decide)
      (by decide),
    h.2.2 "1.2.3.4:80" (by decide) (by decide)⟩

/-! ## C9: DNS target parsing defaults -/

theorem hasChar_append (l r : List Char) (c : Char) :
    hasChar (l ++ r) c = (hasChar l c || hasChar r c) := by
  induction l with
  | nil => simp [hasChar]
  | cons a rest ih => simp [hasChar, ih, Bool.or_assoc]

theorem lastIdxOf_eq_none (cs : List Char) (c : Char)
    (h : hasChar cs c = false) : lastIdxOf cs c = none := by
  induction cs with
  | nil => rfl
  | cons a rest ih =>
    simp only [hasChar, Bool.or_eq_false_iff] at h
    simp [lastIdxOf, ih h.2, of_decide_eq_false h.1]

theorem lastIdxOf_append_sep (l p : List Char) (c : Char)
    (hp : hasChar p c = false) :
    lastIdxOf (l ++ c :: p) c = some l.length := by
  induction l with
  | nil => simp [lastIdxOf, lastIdxOf_eq_none p c hp]
  | cons a rest ih => simp [lastIdxOf, ih]

theorem firstIdxOf_append_sep (l p : List Char) (c : Char)
    (hl : hasChar l c = false) :
    firstIdxOf (l ++ c :: p) c = some l.length := by
  induction l with
  | nil => simp [firstIdxOf]
  | cons a rest ih =>
    simp only [hasChar, Bool.or_eq_false_iff] at hl
    simp [firstIdxOf, of_decide_eq_false hl.1, ih hl.2]

theorem take_len_append (l r : List Char) : (l ++ r).take l.length = l := by
  induction l with
  | nil => rfl
  | cons a rest ih => simp [ih]

theorem drop_len_succ_append (l : List Char) (c : Char) (r : List Char) :
    (l ++ c :: r).drop (l.length + 1) = r := by
  induction l with
  | nil => rfl
  | cons a rest ih => simp [ih]

theorem stringMk_ne_empty (cs : List Char) (h : cs ≠ []) :
    String.mk cs ≠ "" := by
  intro he
  apply h
  have h2 : (String.mk cs).data = ("" : String).data := congrArg String.data he
  simpa using h2

theorem splitHostPort_no_colon (cs port : List Char) (hne : cs ≠ [])
    (hc : hasChar cs ':' = false) (hlb : hasChar cs '[' = false)
    (hrb : hasChar cs ']' = false) (hpc : hasChar port ':' = false)
    (hplb : hasChar port '[' = false) (hprb : hasChar port ']' = false) :
    splitHostPort (String.mk (cs ++ ':' :: port)) =
      some (String.mk cs, String.mk port) := by
  cases cs with
  | nil => cases hne rfl
  | cons a cs' =>
    have hlast : lastIdxOf ((a :: cs') ++ ':' :: port) ':' =
        some (a :: cs').length := lastIdxOf_append_sep _ _ _ hpc
    have ha : ¬ (a = '[') := by
      intro he
      rw [he] at hlb
      simp [hasChar] at hlb
    have hopen : hasChar ((a :: cs') ++ ':' :: port) '[' = false := by
      rw [hasChar_append, hlb]
      simp [hasChar, hplb]
    have hclosebr : hasChar ((a :: cs') ++ ':' :: port) ']' = false := by
      rw [hasChar_append, hrb]
      simp [hasChar, hprb]
    have htake : ((a :: cs') ++ ':' :: port).take (a :: cs').length =
        a :: cs' := take_len_append _ _
    have hdrop : ((a :: cs') ++ ':' :: port).drop ((a :: cs').length + 1) =
        port := drop_len_succ_append _ _ _
    have hhead : ((a :: cs') ++ ':' :: port).head? = some a := rfl
    simp only [splitHostPort, String.toList, hlast, hhead,
      Option.some.injEq, ha, if_false, htake, hc, hopen, hclosebr, hdrop,
      Bool.false_eq_true, reduceIte]

theorem splitHostPort_bracketed (h port : List Char)
    (hhl : hasChar h '[' = false) (hhr : hasChar h ']' = false)
    (hpc : hasChar port ':' = false) (hplb : hasChar port '[' = false)
    (hprb : hasChar port ']' = false) :
    splitHostPort (String.mk ('[' :: h ++ ']' :: ':' :: port)) =
      some (String.mk h, String.mk port) := by
  have hlast : lastIdxOf ('[' :: h ++ ']' :: ':' :: port) ':' =
      some (h.length + 2) := by
    rw [show '[' :: h ++ ']' :: ':' :: port =
      ('[' :: (h ++ [']'])) ++ ':' :: port by simp]
    rw [lastIdxOf_append_sep _ _ _ hpc]
    simp
  have hfirst : firstIdxOf ('[' :: h ++ ']' :: ':' :: port) ']' =
      some (h.length + 1) := by
    rw [show '[' :: h ++ ']' :: ':' :: port =
      ('[' :: h) ++ ']' :: ':' :: port from rfl]
    rw [firstIdxOf_append_sep ('[' :: h) (':' :: port) ']'
      (by simp [hasChar, hhr])]
    simp
  have hlentot : ('[' :: h ++ ']' :: ':' :: port).length =
      h.length + 3 + port.length := by
    simp
    omega
  have hcond1 : ¬ (h.length + 1 + 1 = ('[' :: h ++ ']' :: ':' :: port).length) := by
    rw [hlentot]
    omega
  have hcond2 : ¬ (h.length + 1 + 1 ≠ h.length + 2) := by omega
  have hdrop1 : ('[' :: h ++ ']' :: ':' :: port).drop 1 =
      h ++ ']' :: ':' :: port := rfl
  have hopen : hasChar (h ++ ']' :: ':' :: port) '[' = false := by
    rw [hasChar_append]
    simp only [hhl, hasChar, Bool.false_or, Bool.or_eq_false_iff]
    exact ⟨by decide, by decide, hplb⟩
  have hdrop2 : ('[' :: h ++ ']' :: ':' :: port).drop (h.length + 1 + 1) =
      ':' :: port := by
    rw [show '[' :: h ++ ']' :: ':' :: port =
      ('[' :: h) ++ ']' :: (':' :: port) from rfl]
    rw [show h.length + 1 + 1 = ('[' :: h).length + 1 by simp]
    exact drop_len_succ_append _ _ _
  have hclosebr : hasChar (':' :: port) ']' = false := by
    simp only [hasChar, Bool.or_eq_false_iff]
    exact ⟨by decide, hprb⟩
  have htake : (h ++ ']' :: ':' :: port).take (h.length + 1 - 1) = h := by
    simp only [Nat.add_sub_cancel]
    exact take_len_append h _
  have hdrop3 : ('[' :: h ++ ']' :: ':' :: port).drop (h.length + 2 + 1) =
      port := by
    rw [show '[' :: h ++ ']' :: ':' :: port =
      ('[' :: (h ++ [']'])) ++ ':' :: port by simp]
    rw [show h.length + 2 + 1 = ('[' :: (h ++ [']'])).length + 1 by simp]
    exact drop_len_succ_append _ _ _
  have hhead : ('[' :: h ++ ']' :: ':' :: port).head? = some '[' := rfl
  simp only [splitHostPort, String.toList, hlast, hfirst, hhead,
    hcond1, hcond2, if_false, if_true, ite_false, ite_true, hdrop1, hdrop2,
    hdrop3, hopen, hclosebr, htake, Bool.false_eq_true, reduceIte]

/-- C9: DNS target parsing — a bare hostname (no colon, no brackets, not
an IP literal) gets default port `443`; an empty host as in `:80` becomes
`localhost`; a target ending in a bare colon gets port `443`; a bracketed
IPv6 host has its brackets stripped (with the port kept, or defaulted when
absent); the empty target is rejected with the missing-address error. -/
theorem c9_parse_target_defaults :
    (∀ cs : List Char, cs ≠ [] → hasChar cs ':' = false →
      hasChar cs '[' = false → hasChar cs ']' = false →
      parseIPBool (String.mk cs) = false →
      parseTarget (String.mk cs) = Except.ok (String.mk cs, "443")) ∧
    parseTarget ":80" = Except.ok ("localhost", "80") ∧
    (∀ t h, t ≠ "" → parseIPBool t = false →
      splitHostPort t = some (h, "") → h ≠ "" →
      parseTarget t = Except.ok (h, "443")) ∧
    (∀ h port : List Char, h ≠ [] →
      hasChar h '[' = false → hasChar h ']' = false →
      hasChar port ':' = false → hasChar port '[' = false →
      hasChar port ']' = false →
      parseIPBool (String.mk ('[' :: h ++ ']' :: ':' :: port)) = false →
      parseTarget (String.mk ('[' :: h ++ ']' :: ':' :: port)) =
        Except.ok (String.mk h,
          if port = [] then ("443" : String) else String.mk port)) ∧
    parseTarget "" = Except.error NErr.missingAddr := by
  refine ⟨?_, rfl, ?_, ?_, rfl⟩
  · intro cs hne hc hlb hrb hip
    have hne' : ¬ (String.mk cs = "") := stringMk_ne_empty cs hne
    have hsp1 : splitHostPort (String.mk cs) = none := by
      simp only [splitHostPort, String.toList, lastIdxOf_eq_none cs ':' hc]
    have hstr : String.mk cs ++ ":" ++ defaultPort =
        String.mk (cs ++ ':' :: ['4', '4', '3']) := by
      rw [show (":" : String) = String.mk [':'] from rfl]
      rw [show defaultPort = String.mk ['4', '4', '3'] from rfl]
      rw [show String.mk cs ++ String.mk [':'] = String.mk (cs ++ [':'])
        from rfl]
      rw [show String.mk (cs ++ [':']) ++ String.mk ['4', '4', '3'] =
        String.mk ((cs ++ [':']) ++ ['4', '4', '3']) from rfl]
      simp
    have hsp2 := splitHostPort_no_colon cs ['4', '4', '3'] hne hc hlb hrb
      (by decide) (by decide) (by decide)
    simp only [parseTarget, hne', if_false, hip, Bool.false_eq_true, hsp1,
      hstr, hsp2]
  · intro t h hne hip hsp hh
    simp only [parseTarget, hne, if_false, hip, Bool.false_eq_true, hsp, hh,
      reduceIte, defaultPort]
  · intro h port hne hhl hhr hpc hplb hprb hip
    have hsp := splitHostPort_bracketed h port hhl hhr hpc hplb hprb
    have hne' : ¬ (String.mk ('[' :: h ++ ']' :: ':' :: port) = "") :=
      stringMk_ne_empty _ (by simp)
    have hh' : ¬ (String.mk h = "") := stringMk_ne_empty h hne
    simp only [parseTarget, hne', if_false, hip, Bool.false_eq_true, hsp, hh',
      reduceIte]
    by_cases hp : port = []
    · subst hp
      simp
      rfl
    · have hp' : ¬ (String.mk port = "") := stringMk_ne_empty port hp
      simp [hp, hp']

/-- Witness for C9: a bare hostname, a bare trailing colon and a bracketed
IPv6 literal with port, at concrete inputs. -/
theorem c9_parse_target_defaults_witness :
    parseTarget "www.google.com" = Except.ok ("www.google.com", "443") ∧
    parseTarget "host:" = Except.ok ("host", "443") ∧
    parseTarget (String.mk ('[' :: [':', ':', '1'] ++ ']' :: ':' :: ['8', '0'])) =
      Except.ok ("::1", "80") := by
  have h := c9_parse_target_defaults
  refine ⟨?_, ?_, ?_⟩
  · have h1 := h.1 "www.google.com".toList (by decide) (by decide) (by decide)
      (by decide) (by decide)
    exact h1
  · have h3 := h.2.2.1 "host:" "host" (by decide) (by decide) (by decide)
      (by decide)
    exact h3
  · have h4 := h.2.2.2.1 [':', ':', '1'] ['8', '0'] (by decide) (by decide)
      (by decide) (by decide) (by decide) (by decide) (by decide)
    simpa using h4

end Spine
